import Mathlib

/-!
# Slicer: attack-surface classification and string-resource probing

A shallow embedding of `main.go`: the `etree` element tree as far as the program
reads it, the manifest side (`getIntents`, `exported`, `parseManifest`), the
string-resource side (`parseStrings`) and the regular-file branch of `main`.

Standard output and the network are explicit: every function returns the list of
events it produced (`Event.print` for one call of `fmt.Printf` or `fmt.Println`,
`Event.get` for one call of `sendRequest`), and the answer of the network to the
`n`-th request of the run is read from an oracle `Net`.
-/

set_option autoImplicit false

namespace Slicer

/-! ## Go strings -/

/-- Go `strings.Contains(s, substr)`: `substr` occurs in `s` as a contiguous block. -/
def contains (s substr : String) : Bool :=
  decide (substr.data <:+: s.data)

/-- Go `strings.ToLower` on the ASCII letters `A`..`Z`; every other character is kept.
(Go also maps non-ASCII upper-case letters; the names the theorems evaluate are ASCII.) -/
def toLower (s : String) : String :=
  String.mk (s.data.map Char.toLower)

/-! ## The part of `etree` the program uses -/

/-- An `etree.Attr`: namespace prefix, local key and value. -/
structure Attr where
  Space : String
  Key : String
  Value : String

/-- An `etree.Token`, a child of an element. -/
inductive Token where
  | element (Space Tag : String) (Attr : List Attr) (Child : List Token)
  | charData (Data : String)
  | comment (Data : String)
  | directive (Data : String)
  | procInst (Target Inst : String)

/-- An `etree.Element`: namespace prefix, tag, attributes and child tokens. -/
structure Element where
  Space : String
  Tag : String
  Attr : List Attr
  Child : List Token

/-- An `etree.Document`: an element without a tag whose children are the top-level tokens. -/
structure Document extends Element

/-- The type switch `t.(*Element)`. -/
def Token.asElement : Token → Option Element
  | .element s t a c => some ⟨s, t, a, c⟩
  | _ => none

/-- The function `spaceDecompose` of etree: split `space:key` at the first colon. -/
def spaceDecompose (str : String) : String × String :=
  match str.data.span (fun c => c != ':') with
  | (_, []) => ("", str)
  | (pre, _ :: post) => (String.mk pre, String.mk post)

/-- The function `spaceMatch` of etree: an empty wanted prefix matches every prefix. -/
def spaceMatch (a b : String) : Bool :=
  if a = "" then true else a = b

/-- The loop of `Element.SelectAttrValue` over the attributes. -/
def selectAttrLoop (space skey dflt : String) : List Attr → String
  | [] => dflt
  | a :: rest =>
    if spaceMatch space a.Space && skey = a.Key then a.Value
    else selectAttrLoop space skey dflt rest

/-- The method `Element.SelectAttrValue(key, dflt)`: the value of the first attribute that
matches, or `dflt`. -/
def Element.SelectAttrValue (e : Element) (key dflt : String) : String :=
  let (space, skey) := spaceDecompose key
  selectAttrLoop space skey dflt e.Attr

/-- The method `Element.ChildElements()`: the children that are elements, in order. -/
def Element.ChildElements (e : Element) : List Element :=
  e.Child.filterMap Token.asElement

/-- The method `Element.SelectElements(tag)`: the child elements with that tag, in order.
The Go slice is nil exactly when this list is empty. -/
def Element.SelectElements (e : Element) (tag : String) : List Element :=
  let (space, stag) := spaceDecompose tag
  e.ChildElements.filter (fun c => spaceMatch space c.Space && stag = c.Tag)

/-- The method `Element.SelectElement(tag)`: the first child element with that tag, or nil. -/
def Element.SelectElement (e : Element) (tag : String) : Option Element :=
  (e.SelectElements tag).head?

/-- The loop of `Element.Text()`: character data is concatenated up to the first token that
is not character data. -/
def textLoop : List Token → String
  | .charData d :: rest => d ++ textLoop rest
  | _ => ""

/-- The method `Element.Text()`: the character data that follows the opening tag. -/
def Element.Text (e : Element) : String :=
  textLoop e.Child

/-! ## Events -/

/-- What the program does to the outside: text written to standard output by one call of
`fmt.Printf` or `fmt.Println`, or one HTTP GET sent by `sendRequest`. -/
inductive Event where
  | print (s : String)
  | get (url : String)
  deriving DecidableEq

/-- The text of a print event. -/
def Event.printed : Event → Option String
  | .print s => some s
  | .get _ => none

/-- The URL of a request event. -/
def Event.requested : Event → Option String
  | .get u => some u
  | .print _ => none

/-! ## Manifest side -/

/-- The body of the inner loop of `getIntents`: assign `formatedIntent` for the child
(`Type` in the source, `Typ` here) and print it. The result is the new value of the
variable and the printed line. -/
def getIntentsChild (Typ : Element) (_formatedIntent : String) : String × Event :=
  let formatedIntent :=
    if Typ.Tag = "data" then
      let host := Typ.SelectAttrValue "android:host" "*"
      let scheme := Typ.SelectAttrValue "android:scheme" "*"
      "\t\t - " ++ Typ.Tag ++ ": " ++ scheme ++ "://" ++ host
    else
      "\t\t - " ++ Typ.Tag ++ ": " ++ Typ.SelectAttrValue "android:name" "no name"
  (formatedIntent, Event.print (formatedIntent ++ "\n"))

/-- The inner loop of `getIntents` over the child elements of one filter, threading the
variable `formatedIntent` and the output written so far. -/
def getIntentsChildren : List Element → String × List Event → String × List Event
  | [], st => st
  | Typ :: rest, (formatedIntent, out) =>
    let (f, ev) := getIntentsChild Typ formatedIntent
    getIntentsChildren rest (f, out ++ [ev])

/-- The outer loop of `getIntents` over the filters. -/
def getIntentsLoop : List Element → String × List Event → String × List Event
  | [], st => st
  | intents :: rest, (formatedIntent, out) =>
    getIntentsLoop rest
      (getIntentsChildren intents.ChildElements
        (formatedIntent, out ++ [Event.print "\tIntent-filters:\n"]))

/-- The function `getIntents`: the variable `formatedIntent` starts empty. -/
def getIntents (intentFilters : List Element) : List Event :=
  (getIntentsLoop intentFilters ("", [])).2

/-- The function `exported`. -/
def exported (component : Element) : List Event :=
  let exported := component.SelectAttrValue "android:exported" "none"
  if exported = "none" then
    let intentFilter := component.SelectElements "intent-filter"
    if !intentFilter.isEmpty then
      [Event.print ("\t" ++ component.SelectAttrValue "android:name" "name not defined" ++ ":"),
       Event.print ("\n\tPermission: " ++ component.SelectAttrValue "android:permission" "null"
         ++ "\n")]
      ++ getIntents intentFilter
    else []
  else if exported = "true" then
    let intentFilter := component.SelectElements "intent-filter"
    [Event.print ("\t" ++ component.SelectAttrValue "android:name" "name not defined" ++ ":"),
     Event.print ("\n\tPermission: " ++ component.SelectAttrValue "android:permission" "null"
       ++ "\n")]
    ++ (if !intentFilter.isEmpty then getIntents intentFilter else [])
  else []

/-- The body of the loop of `parseManifest` over the `application` elements. -/
def parseManifestApp (app : Element) : List Event :=
  let backup := app.SelectAttrValue "android:allowBackup" "true"
  let debuggable := app.SelectAttrValue "android:debuggable" "false"
  let attackSurface := ["activity", "receiver", "service", "provider"]
  [Event.print ("Backup allowed:  " ++ backup ++ "\n"),
   Event.print ("Debuggable:  " ++ debuggable ++ "\n")]
  ++ (attackSurface.map (fun com =>
        Event.print ("\n" ++ com ++ ":\n") :: ((app.SelectElements com).map exported).flatten)).flatten

/-- The function `parseManifest`. The result is `none` when `root` is nil: the call
`root.SelectElements` then dereferences a nil pointer and the program panics. -/
def parseManifest (document : Document) : Option (List Event) :=
  match document.SelectElement "manifest" with
  | none => none
  | some root => some (((root.SelectElements "application").map parseManifestApp).flatten)

/-! ## String-resource side -/

/-- What `sendRequest(url)` and the later `ioutil.ReadAll(req.Body)` give for one request:
the GET fails (`err != nil`), or a response arrives with a status code and a body whose
read succeeds (`some`) or fails (`none`). -/
inductive Response where
  | sendError
  | response (StatusCode : Nat) (body : Option String)
  deriving DecidableEq

/-- The network as `sendRequest` shows it: the answer to the request for `url` sent when `n`
requests were sent before it in this run. The oracle itself is free; what `http.Get` does
before anything is sent is stated with `Refuses`. -/
abbrev Net := Nat → String → Response

/-- `sendRequest(url)` always returns an error. This is what `http.Get` does with a URL that
has no scheme, such as `"/.json"`: the default client refuses it (unsupported protocol
scheme) before a request is sent. -/
def Refuses (net : Net) (url : String) : Prop :=
  ∀ n, net n url = Response.sendError

/-- A stretch of execution inside `parseStrings`: the events produced, the number of
requests sent so far, and whether the stretch ended in the `return` statement. -/
structure Run where
  out : List Event
  sent : Nat
  returned : Bool
  deriving DecidableEq

/-- Sequencing: after a `return` nothing more runs, otherwise `k` continues from the
number of requests already sent. -/
def Run.seq (r : Run) (k : Nat → Run) : Run :=
  if r.returned then r
  else ⟨r.out ++ (k r.sent).out, (k r.sent).sent, (k r.sent).returned⟩

/-- The inner loop of the Google branch, over the values of one map of the configuration
in the order the iteration yields them. `text` is `str.Text()`. -/
def googleValues (net : Net) (text : String) : List String → Nat → Run
  | [], n => ⟨[], n, false⟩
  | values :: rest, n =>
    let requestURL := values ++ text
    match net n requestURL with
    | .sendError =>
      Run.seq ⟨[Event.get requestURL,
                Event.print "Unable to connect to the the google map\n"], n + 1, false⟩
        (googleValues net text rest)
    | .response _ none => ⟨[Event.get requestURL], n + 1, true⟩
    | .response StatusCode (some body) =>
      Run.seq
        ⟨Event.get requestURL ::
          (if StatusCode ≠ 403 && !contains body "API project is not authorized" && text ≠ ""
           then [Event.print ("\n\t- " ++ requestURL ++ ": " ++ toString StatusCode ++ "\n")]
           else []), n + 1, false⟩
        (googleValues net text rest)

/-- The outer loop of the Google branch, over the maps of the configuration list `URLs`. -/
def googleKeys (net : Net) (text : String) : List (List String) → Nat → Run
  | [], n => ⟨[], n, false⟩
  | keys :: rest, n => Run.seq (googleValues net text keys n) (googleKeys net text rest)

/-- The condition of the third `if` of the loop body of `parseStrings`: the name heuristic
and the non-empty value. -/
def genericCandidate (strValues text : String) : Bool :=
  contains (toLower strValues) "api" && text ≠ "" && contains (toLower strValues) "key"

/-- The third `if` of the loop body of `parseStrings`: the generic rule with its denylist. -/
def parseStringsGeneric (str : Element) : List Event :=
  let strValues := str.SelectAttrValue "name" "none"
  if genericCandidate strValues str.Text then
    if strValues = "abc_capital_off" || strValues = "abc_capital_on"
        || strValues = "currentApiLevel" then []
    else [Event.print ("\t- " ++ strValues ++ ": " ++ str.Text ++ "\n")]
  else []

/-- The second `if` of the loop body of `parseStrings`: the Google branch. -/
def parseStringsGoogle (net : Net) (googleURL : List (List String)) (str : Element)
    (n : Nat) : Run :=
  let strValues := str.SelectAttrValue "name" "none"
  if strValues = "google_api_key" || strValues = "google_map_keys" then
    googleKeys net str.Text googleURL n
  else ⟨[], n, false⟩

/-- The loop body of `parseStrings` after the Firebase branch. -/
def parseStringsRest (net : Net) (googleURL : List (List String)) (str : Element)
    (n : Nat) : Run :=
  Run.seq (parseStringsGoogle net googleURL str n) (fun m => ⟨parseStringsGeneric str, m, false⟩)

/-- The loop body of `parseStrings` for the entry `str`, started with `n` requests sent.
The `continue` of the Firebase branch ends the body; the `return` of the Google branch is
recorded in `returned`. -/
def parseStringsBody (net : Net) (googleURL : List (List String)) (str : Element)
    (n : Nat) : Run :=
  let strValues := str.SelectAttrValue "name" "none"
  if strValues = "firebase_database_url" then
    let firebaseURL := str.Text ++ "/.json"
    match net n firebaseURL with
    | .sendError =>
      ⟨[Event.get firebaseURL, Event.print "Couldn't connect to Firebase\n"], n + 1, false⟩
    | .response StatusCode _ =>
      Run.seq
        ⟨[Event.get firebaseURL,
          (if StatusCode = 401 then Event.print ("\n\t- " ++ firebaseURL ++ ": Permission Denied")
           else Event.print ("\n\t- " ++ firebaseURL ++ ": Is open to public")),
          Event.print "\n"], n + 1, false⟩
        (parseStringsRest net googleURL str)
  else parseStringsRest net googleURL str n

/-- The loop of `parseStrings` over the `string` elements. -/
def parseStringsLoop (net : Net) (googleURL : List (List String)) : List Element → Nat → Run
  | [], n => ⟨[], n, false⟩
  | str :: rest, n =>
    Run.seq (parseStringsBody net googleURL str n) (parseStringsLoop net googleURL rest)

/-- The function `parseStrings`, with `googleURL` the configuration list `URLs` (a list of
maps, each given by its values in iteration order, rendered with `%s`). The result is
`none` when `root` is nil: `root.SelectElements` then dereferences a nil pointer and the
program panics. -/
def parseStrings (net : Net) (googleURL : List (List String)) (n : Nat)
    (document : Document) : Option Run :=
  match document.SelectElement "resources" with
  | none => none
  | some root => some (parseStringsLoop net googleURL (root.SelectElements "string") n)

/-! ## The regular-file branch of `main` -/

/-- The loop of `main` over `doc.FindElements("./manifest/application/meta-data")`. -/
def mainMetaData (doc : Document) : List Event :=
  let elems := (((doc.SelectElements "manifest").map
    (fun m => ((m.SelectElements "application").map
      (fun a => a.SelectElements "meta-data")).flatten)).flatten)
  (elems.map (fun elem =>
    let name := elem.SelectAttrValue "android:name" ""
    if name ≠ "" && contains (toLower name) "api" then
      [Event.print ("\t- " ++ name ++ ": " ++ elem.SelectAttrValue "android:value" "none" ++ "\n")]
    else [])).flatten

/-- The case `mode.IsRegular()` of `main` for a file that was read into `doc`: a document
with a root `manifest` goes to `parseManifest`, every other document to `parseStrings`.
The result is `none` when the program panics on a nil pointer. -/
def mainRegular (net : Net) (googleURL : List (List String)) (n : Nat)
    (doc : Document) : Option Run :=
  if (doc.SelectElement "manifest").isSome then
    (parseManifest doc).map (fun out =>
      ⟨out ++ [Event.print "Apikeys-in-manifest:\n"] ++ mainMetaData doc, n, false⟩)
  else
    (parseStrings net googleURL n doc).map (fun r =>
      ⟨Event.print "Strings:\n" :: r.out, r.sent, false⟩)

/-! ## Notions of the specification -/

/-- The value of the attribute `space:key` of `e`, `none` when the attribute is absent. -/
def Element.attr? (e : Element) (space key : String) : Option String :=
  (e.Attr.find? (fun a => decide (space = a.Space ∧ key = a.Key))).map Attr.Value

/-- The component has at least one `intent-filter` child element. -/
def hasIntentFilter (component : Element) : Prop :=
  ∃ c ∈ component.ChildElements, c.Tag = "intent-filter"

/-- The component with every `android:exported` attribute removed. -/
def withoutExported (component : Element) : Element :=
  { component with
    Attr := component.Attr.filter
      (fun a => !decide ("android" = a.Space ∧ "exported" = a.Key)) }

/-- The line the specification gives for one rule of an intent filter, with the
indentation `getIntents` prints in front of the dash. -/
def ruleLine (rule : Element) : String :=
  if rule.Tag = "data" then
    "\t\t - data: " ++ (rule.attr? "android" "scheme").getD "*" ++ "://"
      ++ (rule.attr? "android" "host").getD "*"
  else
    "\t\t - " ++ rule.Tag ++ ": " ++ (rule.attr? "android" "name").getD "no name"

/-- Go `strings.HasPrefix(s, p)`. -/
def hasPrefix (s p : String) : Bool :=
  p.data.isPrefixOf s.data

/-- A generic finding line: printed text that starts with the bullet `"\t- "` of the third
rule of `parseStrings`. -/
def Event.isGenericLine : Event → Bool
  | .print s => hasPrefix s "\t- "
  | .get _ => false

/-- A probe finding line: printed text that starts with the bullet `"\n\t- "` of the
Firebase and Google branches of `parseStrings`. -/
def Event.isProbeLine : Event → Bool
  | .print s => hasPrefix s "\n\t- "
  | .get _ => false

/-- The probes of a Google key entry with text `text`: the endpoints are requested in
order, each with the key appended, and a probe whose body read fails is the last one.
Every probe is listed with its URL and the answer it got. -/
def probesOf (net : Net) (text : String) : List String → Nat → List (String × Response)
  | [], _ => []
  | endpoint :: rest, n =>
    (endpoint ++ text, net n (endpoint ++ text)) ::
      (match net n (endpoint ++ text) with
       | .response _ none => []
       | _ => probesOf net text rest (n + 1))

/-- The finding line the specification gives for one probe of a Google key: the request and
the body read succeeded, the status is not 403, the body does not contain "API project is
not authorized", and the key is not empty. -/
def googleFinding (text : String) : String × Response → Option Event
  | (url, .response status (some body)) =>
    if status ≠ 403 ∧ contains body "API project is not authorized" = false ∧ text ≠ "" then
      some (Event.print ("\n\t- " ++ url ++ ": " ++ toString status ++ "\n"))
    else none
  | _ => none

/-- The run of `parseStrings` on `document`, started with `n` requests sent, arrives at the
entry `str`: the `string` elements of the root are `pre ++ str :: post`, no `return` happens
while `pre` is processed, and `m` requests are sent when the body starts on `str`. -/
def Reaches (net : Net) (googleURL : List (List String)) (n : Nat) (document : Document)
    (pre : List Element) (str : Element) (post : List Element) (m : Nat) : Prop :=
  ∃ root, document.SelectElement "resources" = some root
    ∧ root.SelectElements "string" = pre ++ str :: post
    ∧ (parseStringsLoop net googleURL pre n).returned = false
    ∧ (parseStringsLoop net googleURL pre n).sent = m

/-- The run over the entries `pre ++ str :: post` cut at `str`: the entries before `str`,
then the body on `str`, then the entries after it, where a `return` ends the run. -/
def runAround (net : Net) (googleURL : List (List String)) (pre : List Element)
    (str : Element) (post : List Element) (n : Nat) : Run :=
  Run.seq (parseStringsLoop net googleURL pre n)
    (fun m => Run.seq (parseStringsBody net googleURL str m)
      (parseStringsLoop net googleURL post))

/-! ## Example inputs -/

/-- The element `<string name="name">text</string>`. -/
def stringElement (name text : String) : Element :=
  ⟨"", "string", [⟨"", "name", name⟩], [Token.charData text]⟩

/-- An element as a child token. -/
def Element.toToken (e : Element) : Token :=
  Token.element e.Space e.Tag e.Attr e.Child

/-- The document `<resources>..</resources>` with the given child elements. -/
def resourcesDocument (entries : List Element) : Document :=
  ⟨⟨"", "", [], [Token.element "" "resources" [] (entries.map Element.toToken)]⟩⟩

/-- The network that gives every request the same answer. -/
def netAlways (r : Response) : Net :=
  fun _ _ => r

/-- The network that refuses the URL `refused` and gives every other request the answer
`r`. -/
def netRefusing (refused : String) (r : Response) : Net :=
  fun _ url => if url = refused then Response.sendError else r

end Slicer

namespace Slicer

/-! ## Lemmas on the element tree -/

theorem selectAttrLoop_eq (space key dflt : String) (hs : space ≠ "") (l : List Attr) :
    selectAttrLoop space key dflt l
      = ((l.find? (fun a => decide (space = a.Space ∧ key = a.Key))).map Attr.Value).getD
          dflt := by
  induction l with
  | nil => rfl
  | cons a rest ih =>
    by_cases h : space = a.Space ∧ key = a.Key
    · simp [selectAttrLoop, spaceMatch, hs, h.1.symm, h.2.symm]
    · have h2 : ¬ (space = a.Space ∧ key = a.Key) := h
      simp only [selectAttrLoop, spaceMatch, hs, if_false, List.find?_cons]
      simp only [Bool.and_eq_true, decide_eq_true_eq, h2, if_false, decide_False, ih]

theorem selectAttrValue_android (e : Element) (key dflt : String)
    (hk : spaceDecompose ("android:" ++ key) = ("android", key)) :
    e.SelectAttrValue ("android:" ++ key) dflt = (e.attr? "android" key).getD dflt := by
  unfold Element.SelectAttrValue Element.attr?
  rw [hk]
  exact selectAttrLoop_eq "android" key dflt (by decide) e.Attr

theorem selectElements_intentFilter (e : Element) :
    e.SelectElements "intent-filter"
      = e.ChildElements.filter (fun c => decide (c.Tag = "intent-filter")) := by
  unfold Element.SelectElements
  have hk : spaceDecompose "intent-filter" = ("", "intent-filter") := by decide
  rw [hk]
  apply List.filter_congr
  intro c _
  simp [spaceMatch, eq_comm]

theorem selectElements_isEmpty (e : Element) :
    (e.SelectElements "intent-filter").isEmpty = false ↔ hasIntentFilter e := by
  rw [selectElements_intentFilter, hasIntentFilter]
  constructor
  · intro h
    cases hl : e.ChildElements.filter (fun c => decide (c.Tag = "intent-filter")) with
    | nil => rw [hl] at h; simp at h
    | cons c rest =>
      have hc : c ∈ e.ChildElements.filter (fun c => decide (c.Tag = "intent-filter")) := by
        rw [hl]; exact List.mem_cons_self _ _
      rw [List.mem_filter] at hc
      exact ⟨c, hc.1, by simpa using hc.2⟩
  · rintro ⟨c, hc, ht⟩
    have hm : c ∈ e.ChildElements.filter (fun c => decide (c.Tag = "intent-filter")) := by
      rw [List.mem_filter]; exact ⟨hc, by simpa using ht⟩
    cases hl : e.ChildElements.filter (fun c => decide (c.Tag = "intent-filter")) with
    | nil => rw [hl] at hm; simp at hm
    | cons _ _ => rfl

theorem withoutExported_attr (c : Element) :
    (withoutExported c).attr? "android" "exported" = none := by
  unfold withoutExported Element.attr?
  simp only [Option.map_eq_none', List.find?_eq_none, List.mem_filter]
  rintro a ⟨_, ha⟩
  simpa [imp_iff_not_or] using ha

theorem find_filter_exported (k : String) (hne : k ≠ "exported") (l : List Attr) :
    (l.filter (fun a => !decide ("android" = a.Space ∧ "exported" = a.Key))).find?
        (fun a => decide ("android" = a.Space ∧ k = a.Key))
      = l.find? (fun a => decide ("android" = a.Space ∧ k = a.Key)) := by
  induction l with
  | nil => rfl
  | cons a rest ih =>
    by_cases ha : "android" = a.Space ∧ "exported" = a.Key
    · have hk2 : ¬ ("android" = a.Space ∧ k = a.Key) := by
        rintro ⟨_, h2⟩; exact hne (h2.trans ha.2.symm)
      rw [List.filter_cons_of_neg (by rw [decide_eq_true ha]; decide),
        List.find?_cons_of_neg _ (by rw [decide_eq_false hk2]; decide), ih]
    · rw [List.filter_cons_of_pos (by rw [decide_eq_false ha]; decide)]
      by_cases hk2 : "android" = a.Space ∧ k = a.Key
      · have e := decide_eq_true hk2
        simp only [List.find?_cons, e]
      · rw [List.find?_cons_of_neg _ (by rw [decide_eq_false hk2]; decide),
          List.find?_cons_of_neg _ (by rw [decide_eq_false hk2]; decide), ih]

theorem withoutExported_children (c : Element) :
    (withoutExported c).ChildElements = c.ChildElements := rfl

end Slicer

namespace Slicer

/-! ## Manifest side: lemmas -/

theorem exported_unset (c : Element) (h : c.attr? "android" "exported" = none) :
    exported c =
      if (c.SelectElements "intent-filter").isEmpty then []
      else
        [Event.print ("\t" ++ c.SelectAttrValue "android:name" "name not defined" ++ ":"),
         Event.print ("\n\tPermission: " ++ c.SelectAttrValue "android:permission" "null"
           ++ "\n")]
        ++ getIntents (c.SelectElements "intent-filter") := by
  have hv : c.SelectAttrValue "android:exported" "none" = "none" := by
    have := selectAttrValue_android c "exported" "none" (by decide)
    rw [h] at this
    exact this
  unfold exported
  simp only [hv, if_true]
  cases (c.SelectElements "intent-filter").isEmpty <;> simp

theorem exported_value (c : Element) (v : String)
    (h : c.attr? "android" "exported" = some v) :
    c.SelectAttrValue "android:exported" "none" = v := by
  have := selectAttrValue_android c "exported" "none" (by decide)
  rw [h] at this
  exact this

theorem exported_other (c : Element) (v : String)
    (h : c.attr? "android" "exported" = some v) (h1 : v ≠ "none") (h2 : v ≠ "true") :
    exported c = [] := by
  unfold exported
  simp only [exported_value c v h, h1, h2, if_false]

theorem exported_true (c : Element) (h : c.attr? "android" "exported" = some "true") :
    exported c ≠ [] := by
  unfold exported
  simp only [exported_value c "true" h]
  simp

theorem getIntentsChild_eq (c : Element) (f : String) :
    getIntentsChild c f = (ruleLine c, Event.print (ruleLine c ++ "\n")) := by
  have hs := selectAttrValue_android c "scheme" "*" (by decide)
  have hh := selectAttrValue_android c "host" "*" (by decide)
  have hn := selectAttrValue_android c "name" "no name" (by decide)
  have e1 : "android:" ++ "scheme" = "android:scheme" := by decide
  have e2 : "android:" ++ "host" = "android:host" := by decide
  have e3 : "android:" ++ "name" = "android:name" := by decide
  rw [e1] at hs; rw [e2] at hh; rw [e3] at hn
  unfold getIntentsChild ruleLine
  by_cases ht : c.Tag = "data"
  · have e4 : "\t\t - " ++ "data" ++ ": " = "\t\t - data: " := by decide
    simp only [ht, if_true, hs, hh, e4]
  · simp only [ht, if_false, hn]

theorem getIntentsChildren_snd (cs : List Element) (f : String) (out : List Event) :
    (getIntentsChildren cs (f, out)).2
      = out ++ cs.map (fun c => Event.print (ruleLine c ++ "\n")) := by
  induction cs generalizing f out with
  | nil => simp [getIntentsChildren]
  | cons c rest ih =>
    simp only [getIntentsChildren, getIntentsChild_eq, ih, List.map_cons, List.append_assoc,
      List.singleton_append]

theorem getIntentsChildren_pair (cs : List Element) (st : String × List Event) :
    getIntentsChildren cs st = ((getIntentsChildren cs st).1, (getIntentsChildren cs st).2) :=
  rfl

theorem getIntentsLoop_snd (fs : List Element) (f : String) (out : List Event) :
    (getIntentsLoop fs (f, out)).2
      = out ++ (fs.map (fun i => Event.print "\tIntent-filters:\n" ::
          i.ChildElements.map (fun c => Event.print (ruleLine c ++ "\n")))).flatten := by
  induction fs generalizing f out with
  | nil => simp [getIntentsLoop]
  | cons i rest ih =>
    rw [getIntentsLoop, getIntentsChildren_pair, ih, getIntentsChildren_snd]
    simp [List.append_assoc]

/-! ## Manifest side: the claims -/

/-- C1: for a component whose `android:exported` attribute is absent, "true" or "false",
`exported` emits a report entry (a non-empty output) if and only if the attribute is
"true", or it is absent and the component has at least one `intent-filter` child. -/
theorem exported_emits_iff (component : Element)
    (h : component.attr? "android" "exported" = none
      ∨ component.attr? "android" "exported" = some "true"
      ∨ component.attr? "android" "exported" = some "false") :
    exported component ≠ [] ↔
      (component.attr? "android" "exported" = some "true"
        ∨ (component.attr? "android" "exported" = none ∧ hasIntentFilter component)) := by
  rcases h with h | h | h
  · rw [exported_unset component h]
    have hi := selectElements_isEmpty component
    cases he : (component.SelectElements "intent-filter").isEmpty with
    | true =>
      rw [he] at hi
      simp only [h, if_true, ne_eq, not_true_eq_false, false_iff]
      rintro (h' | ⟨_, h'⟩)
      · cases h'
      · exact absurd (hi.2 h') (by simp)
    | false =>
      rw [he] at hi
      simp only [h, Bool.false_eq_true, if_false, true_and]
      constructor
      · intro _; exact Or.inr (hi.1 rfl)
      · intro _; simp
  · constructor
    · intro _; exact Or.inl h
    · intro _; exact exported_true component h
  · rw [exported_other component "false" h (by decide) (by decide)]
    simp [h]

/-- Witness of C1: an activity without the attribute and with one intent filter. -/
theorem exported_emits_iff_witness :
    (exported ⟨"", "activity", [⟨"android", "name", "A"⟩],
        [.element "" "intent-filter" [] [.element "" "action" [⟨"android", "name", "VIEW"⟩] []]]⟩
      ≠ [] ↔
      ((⟨"", "activity", [⟨"android", "name", "A"⟩],
          [.element "" "intent-filter" []
            [.element "" "action" [⟨"android", "name", "VIEW"⟩] []]]⟩ : Element).attr?
            "android" "exported" = some "true"
        ∨ ((⟨"", "activity", [⟨"android", "name", "A"⟩],
          [.element "" "intent-filter" []
            [.element "" "action" [⟨"android", "name", "VIEW"⟩] []]]⟩ : Element).attr?
            "android" "exported" = none
          ∧ hasIntentFilter ⟨"", "activity", [⟨"android", "name", "A"⟩],
            [.element "" "intent-filter" []
              [.element "" "action" [⟨"android", "name", "VIEW"⟩] []]]⟩))) :=
  exported_emits_iff _ (Or.inl (by decide))

/-- C2, counterexample: an activity with `android:exported="TRUE"` and one intent filter
prints nothing, while the same activity without the attribute prints its entry. -/
theorem exported_illformed_counterexample :
    exported ⟨"", "activity", [⟨"android", "exported", "TRUE"⟩, ⟨"android", "name", "A"⟩],
        [.element "" "intent-filter" [] [.element "" "action" [⟨"android", "name", "VIEW"⟩] []]]⟩
      = []
    ∧ exported (withoutExported
        ⟨"", "activity", [⟨"android", "exported", "TRUE"⟩, ⟨"android", "name", "A"⟩],
          [.element "" "intent-filter" []
            [.element "" "action" [⟨"android", "name", "VIEW"⟩] []]]⟩)
      = [Event.print "\tA:", Event.print "\n\tPermission: null\n",
         Event.print "\tIntent-filters:\n", Event.print "\t\t - action: VIEW\n"] := by
  decide

/-- C2, amended: for a component whose `android:exported` attribute holds a value `v` that
is neither "true" nor "false": if `v` is the literal "none" the output is that of the
component with the attribute removed; for every other `v` the output is empty, and it
equals the output with the attribute removed exactly when the component has no
`intent-filter` child. -/
theorem exported_illformed (component : Element) (v : String)
    (h : component.attr? "android" "exported" = some v)
    (ht : v ≠ "true") (_hf : v ≠ "false") :
    (v = "none" → exported component = exported (withoutExported component))
    ∧ (v ≠ "none" → exported component = []
        ∧ (exported component = exported (withoutExported component)
            ↔ ¬ hasIntentFilter component)) := by
  have hw := exported_unset (withoutExported component) (withoutExported_attr component)
  have hsel : (withoutExported component).SelectElements "intent-filter"
      = component.SelectElements "intent-filter" := rfl
  have hattr : ∀ k d, spaceDecompose ("android:" ++ k) = ("android", k) → k ≠ "exported" →
      (withoutExported component).SelectAttrValue ("android:" ++ k) d
        = component.SelectAttrValue ("android:" ++ k) d := by
    intro k d hk hne
    rw [selectAttrValue_android _ k d hk, selectAttrValue_android _ k d hk]
    unfold withoutExported Element.attr?
    exact congrArg (fun o => (Option.map Attr.Value o).getD d)
      (find_filter_exported k hne component.Attr)
  have hname := hattr "name" "name not defined" (by decide) (by decide)
  have hperm := hattr "permission" "null" (by decide) (by decide)
  have e1 : "android:" ++ "name" = "android:name" := by decide
  have e2 : "android:" ++ "permission" = "android:permission" := by decide
  rw [e1] at hname; rw [e2] at hperm
  rw [hsel, hname, hperm] at hw
  constructor
  · intro hv
    subst hv
    rw [hw]
    unfold exported
    simp only [exported_value component "none" h, if_true]
    cases (component.SelectElements "intent-filter").isEmpty <;> simp
  · intro hv
    have hempty := exported_other component v h hv ht
    refine ⟨hempty, ?_⟩
    rw [hempty, hw]
    have hi := selectElements_isEmpty component
    cases he : (component.SelectElements "intent-filter").isEmpty with
    | true =>
      rw [he] at hi
      simp only [if_true, true_iff]
      intro hc
      exact absurd (hi.2 hc) (by simp)
    | false =>
      rw [he] at hi
      simp only [Bool.false_eq_true, if_false]
      constructor
      · intro hc; simp at hc
      · intro hc; exact absurd (hi.1 rfl) hc

/-- Witness of the amended C2: the value "TRUE" on an activity with one intent filter. -/
theorem exported_illformed_witness :
    ("TRUE" = "none" →
      exported ⟨"", "activity", [⟨"android", "exported", "TRUE"⟩],
          [.element "" "intent-filter" [] []]⟩
        = exported (withoutExported ⟨"", "activity", [⟨"android", "exported", "TRUE"⟩],
          [.element "" "intent-filter" [] []]⟩))
    ∧ ("TRUE" ≠ "none" →
      exported ⟨"", "activity", [⟨"android", "exported", "TRUE"⟩],
          [.element "" "intent-filter" [] []]⟩ = []
      ∧ (exported ⟨"", "activity", [⟨"android", "exported", "TRUE"⟩],
            [.element "" "intent-filter" [] []]⟩
          = exported (withoutExported ⟨"", "activity", [⟨"android", "exported", "TRUE"⟩],
            [.element "" "intent-filter" [] []]⟩)
        ↔ ¬ hasIntentFilter ⟨"", "activity", [⟨"android", "exported", "TRUE"⟩],
            [.element "" "intent-filter" [] []]⟩)) :=
  exported_illformed _ "TRUE" (by decide) (by decide) (by decide)

/-- C8: `getIntents` prints, for each filter in order, the header and then one line per
child element in document order, nothing dropped, merged or reordered; the line of a child
is `ruleLine`: "- data: scheme://host" with "*" for an absent `android:scheme` or
`android:host`, and "- tag: name" with "no name" for an absent `android:name` otherwise.
The number of printed lines is the number of filters plus the number of their children. -/
theorem getIntents_lines (intentFilters : List Element) :
    getIntents intentFilters
      = (intentFilters.map (fun i => Event.print "\tIntent-filters:\n" ::
          i.ChildElements.map (fun c => Event.print (ruleLine c ++ "\n")))).flatten
    ∧ (getIntents intentFilters).length
      = intentFilters.length + (intentFilters.map (fun i => i.ChildElements.length)).sum := by
  have h : getIntents intentFilters
      = (intentFilters.map (fun i => Event.print "\tIntent-filters:\n" ::
          i.ChildElements.map (fun c => Event.print (ruleLine c ++ "\n")))).flatten := by
    unfold getIntents
    rw [getIntentsLoop_snd]
    simp
  refine ⟨h, ?_⟩
  rw [h]
  induction intentFilters with
  | nil => rfl
  | cons i rest ih =>
    simp only [List.map_cons, List.flatten_cons, List.length_append, List.length_cons,
      List.length_map, List.sum_cons]
    have h2 := ih (by unfold getIntents; rw [getIntentsLoop_snd]; simp)
    omega

end Slicer

namespace Slicer

/-! ## String-resource side: lemmas on runs -/

theorem Run.seq_mk_false (out : List Event) (n : Nat) (k : Nat → Run) :
    Run.seq ⟨out, n, false⟩ k = ⟨out ++ (k n).out, (k n).sent, (k n).returned⟩ := by
  simp [Run.seq]

theorem Run.seq_of_returned (r : Run) (k : Nat → Run) (h : r.returned = true) :
    Run.seq r k = r := by
  simp [Run.seq, h]

theorem Run.seq_of_running (r : Run) (k : Nat → Run) (h : r.returned = false) :
    Run.seq r k = ⟨r.out ++ (k r.sent).out, (k r.sent).sent, (k r.sent).returned⟩ := by
  simp [Run.seq, h]

theorem Run.seq_assoc (r : Run) (k1 k2 : Nat → Run) :
    Run.seq (Run.seq r k1) k2 = Run.seq r (fun m => Run.seq (k1 m) k2) := by
  unfold Run.seq
  cases h : r.returned <;> cases h1 : (k1 r.sent).returned <;> simp [h, h1]

theorem Run.seq_pure (r : Run) : Run.seq r (fun m => ⟨[], m, false⟩) = r := by
  cases h : r.returned with
  | true => exact Run.seq_of_returned r _ h
  | false =>
    rw [Run.seq_of_running r _ h]
    cases r
    simp_all

theorem googleValues_append (net : Net) (text : String) (a b : List String) (n : Nat) :
    googleValues net text (a ++ b) n
      = Run.seq (googleValues net text a n) (googleValues net text b) := by
  induction a generalizing n with
  | nil => simp [googleValues, Run.seq_mk_false]
  | cons v rest ih =>
    simp only [List.cons_append, googleValues]
    cases h : net n (v ++ text) with
    | sendError =>
      simp only []
      rw [Run.seq_assoc]
      congr 1
      funext m
      exact ih m
    | response st body =>
      cases body with
      | none => simp [Run.seq]
      | some b' =>
        simp only []
        rw [Run.seq_assoc]
        congr 1
        funext m
        exact ih m

theorem googleKeys_flatten (net : Net) (text : String) (cfg : List (List String)) (n : Nat) :
    googleKeys net text cfg n = googleValues net text cfg.flatten n := by
  induction cfg generalizing n with
  | nil => rfl
  | cons keys rest ih =>
    simp only [googleKeys, List.flatten_cons, googleValues_append]
    congr 1
    funext m
    exact ih m

theorem parseStringsLoop_append (net : Net) (cfg : List (List String))
    (a b : List Element) (n : Nat) :
    parseStringsLoop net cfg (a ++ b) n
      = Run.seq (parseStringsLoop net cfg a n) (parseStringsLoop net cfg b) := by
  induction a generalizing n with
  | nil => simp [parseStringsLoop, Run.seq_mk_false]
  | cons s rest ih =>
    simp only [List.cons_append, parseStringsLoop]
    rw [Run.seq_assoc]
    congr 1
    funext m
    exact ih m

theorem parseStrings_reaches (net : Net) (cfg : List (List String)) (n : Nat)
    (document : Document) (pre : List Element) (str : Element) (post : List Element) (m : Nat)
    (h : Reaches net cfg n document pre str post m) :
    parseStrings net cfg n document = some (runAround net cfg pre str post n) := by
  obtain ⟨root, hroot, hsplit, _, _⟩ := h
  unfold parseStrings runAround
  rw [hroot]
  simp only [hsplit, parseStringsLoop_append]
  rfl

end Slicer

namespace Slicer

/-! ## String-resource side: lemmas on the printed lines -/

theorem hasPrefix_append_left (s t p : String) (h : hasPrefix s p = true) :
    hasPrefix (s ++ t) p = true := by
  unfold hasPrefix at *
  rw [List.isPrefixOf_iff_prefix] at *
  rw [String.data_append]
  exact h.trans (List.prefix_append _ _)

theorem hasPrefix_self_append (p x : String) : hasPrefix (p ++ x) p = true := by
  unfold hasPrefix
  rw [List.isPrefixOf_iff_prefix, String.data_append]
  exact List.prefix_append _ _

theorem head_append_left (s t : String) (c : Char) (h : s.data.head? = some c) :
    (s ++ t).data.head? = some c := by
  rw [String.data_append]
  cases hs : s.data with
  | nil => rw [hs] at h; cases h
  | cons a rest => rw [hs] at h; simpa using h

theorem hasPrefix_false_of_head (s p : String) (c d : Char)
    (hs : s.data.head? = some c) (hp : p.data.head? = some d) (hne : d ≠ c) :
    hasPrefix s p = false := by
  unfold hasPrefix
  cases hsd : s.data with
  | nil => rw [hsd] at hs; cases hs
  | cons a rest =>
    cases hpd : p.data with
    | nil => rw [hpd] at hp; cases hp
    | cons b rest2 =>
      rw [hsd] at hs; rw [hpd] at hp
      simp only [List.head?_cons, Option.some.injEq] at hs hp
      subst hs; subst hp
      simp [List.isPrefixOf, hne]

theorem probeBullet_isProbeLine (x : String) :
    (Event.print ("\n\t- " ++ x)).isProbeLine = true :=
  hasPrefix_self_append _ _

theorem probeBullet_not_generic (x : String) :
    (Event.print ("\n\t- " ++ x)).isGenericLine = false :=
  hasPrefix_false_of_head _ _ '\n' '\t' (head_append_left _ _ _ (by decide)) (by decide)
    (by decide)

theorem genericBullet_isGenericLine (x : String) :
    (Event.print ("\t- " ++ x)).isGenericLine = true :=
  hasPrefix_self_append _ _

theorem genericBullet_not_probe (x : String) :
    (Event.print ("\t- " ++ x)).isProbeLine = false :=
  hasPrefix_false_of_head _ _ '\t' '\n' (head_append_left _ _ _ (by decide)) (by decide)
    (by decide)

theorem googleLine_eq (url status : String) :
    "\n\t- " ++ url ++ ": " ++ status ++ "\n" = "\n\t- " ++ (url ++ ": " ++ status ++ "\n") := by
  simp [String.append_assoc]

theorem genericLine_eq (name text : String) :
    "\t- " ++ name ++ ": " ++ text ++ "\n" = "\t- " ++ (name ++ ": " ++ text ++ "\n") := by
  simp [String.append_assoc]

/-- The Google branch over a flat list of endpoints: the requests are those of `probesOf`,
the probe finding lines are those of `googleFinding`, and nothing is a generic line. -/
theorem googleValues_spec (net : Net) (text : String) (eps : List String) (n : Nat) :
    (googleValues net text eps n).out.filterMap Event.requested
        = (probesOf net text eps n).map Prod.fst
    ∧ (googleValues net text eps n).out.filter Event.isProbeLine
        = (probesOf net text eps n).filterMap (googleFinding text)
    ∧ (∀ e ∈ (googleValues net text eps n).out, e.isGenericLine = false) := by
  induction eps generalizing n with
  | nil => simp [googleValues, probesOf]
  | cons v rest ih =>
    obtain ⟨ih1, ih2, ih3⟩ := ih (n + 1)
    have hnotice : (Event.print "Unable to connect to the the google map\n").isProbeLine
        = false := by decide
    have hnotice2 : (Event.print "Unable to connect to the the google map\n").isGenericLine
        = false := by decide
    have hget : ∀ u, (Event.get u).isProbeLine = false := fun _ => rfl
    simp only [googleValues, probesOf]
    cases h : net n (v ++ text) with
    | sendError =>
      simp only [Run.seq_mk_false]
      refine ⟨?_, ?_, ?_⟩
      · simp [Event.requested, ih1]
      · have hf : googleFinding text (v ++ text, Response.sendError) = none := rfl
        simp only [List.cons_append, List.nil_append, List.filter_cons, hget, hnotice,
          Bool.false_eq_true, if_false, List.filterMap_cons, hf, ih2]
      · intro e he
        simp only [List.cons_append, List.nil_append, List.mem_cons] at he
        rcases he with rfl | rfl | he
        · rfl
        · exact hnotice2
        · exact ih3 e he
    | response st body =>
      cases body with
      | none =>
        refine ⟨?_, ?_, ?_⟩
        · simp [Event.requested]
        · have hf : googleFinding text (v ++ text, Response.response st none) = none := rfl
          simp only [List.filter_cons, hget, Bool.false_eq_true, if_false, List.filter_nil,
            List.filterMap_cons, hf, List.filterMap_nil]
        · intro e he
          simp only [List.mem_singleton] at he
          subst he; rfl
      | some b =>
        simp only [Run.seq_mk_false]
        by_cases hc : st ≠ 403 ∧ contains b "API project is not authorized" = false ∧ text ≠ ""
        · have hcond : (decide (st ≠ 403) && !contains b "API project is not authorized"
              && decide (text ≠ "")) = true := by
            simp [hc.1, hc.2.1, hc.2.2]
          have hf : googleFinding text (v ++ text, Response.response st (some b))
              = some (Event.print ("\n\t- " ++ (v ++ text) ++ ": " ++ toString st ++ "\n")) := by
            unfold googleFinding
            exact if_pos hc
          have hp := probeBullet_isProbeLine (v ++ text ++ ": " ++ toString st ++ "\n")
          rw [← googleLine_eq] at hp
          simp only [hcond, if_true]
          refine ⟨?_, ?_, ?_⟩
          · simp [Event.requested, ih1]
          · simp only [List.cons_append, List.nil_append, List.filter_cons, hget, hp,
              Bool.false_eq_true, if_false, if_true, List.filterMap_cons, hf, ih2]
          · intro e he
            simp only [List.cons_append, List.nil_append, List.mem_cons] at he
            rcases he with rfl | rfl | he
            · rfl
            · have hg := probeBullet_not_generic (v ++ text ++ ": " ++ toString st ++ "\n")
              rw [← googleLine_eq] at hg
              exact hg
            · exact ih3 e he
        · have hcond : (decide (st ≠ 403) && !contains b "API project is not authorized"
              && decide (text ≠ "")) = false := by
            rw [Bool.eq_false_iff]
            intro hx
            apply hc
            simpa [and_assoc] using hx
          have hf : googleFinding text (v ++ text, Response.response st (some b)) = none := by
            unfold googleFinding
            exact if_neg hc
          simp only [hcond, Bool.false_eq_true, if_false]
          refine ⟨?_, ?_, ?_⟩
          · simp [Event.requested, ih1]
          · simp only [List.cons_append, List.nil_append, List.filter_cons, hget,
              Bool.false_eq_true, if_false, List.filterMap_cons, hf, ih2]
          · intro e he
            simp only [List.cons_append, List.nil_append, List.mem_cons] at he
            rcases he with rfl | he
            · rfl
            · exact ih3 e he

end Slicer

namespace Slicer

/-! ## String-resource side: lemmas on the loop body -/

theorem Run.seq_out (r : Run) (k : Nat → Run) :
    (Run.seq r k).out = r.out ++ (if r.returned then [] else (k r.sent).out) := by
  cases h : r.returned with
  | true => rw [Run.seq_of_returned r k h]; simp
  | false => rw [Run.seq_of_running r k h]; simp

theorem genericCandidate_firebase (text : String) :
    genericCandidate "firebase_database_url" text = false := by
  have h : contains (toLower "firebase_database_url") "api" = false := by decide
  simp [genericCandidate, h]

theorem genericCandidate_mapKeys (text : String) :
    genericCandidate "google_map_keys" text = false := by
  have h : contains (toLower "google_map_keys") "api" = false := by decide
  simp [genericCandidate, h]

theorem genericCandidate_apiKey (text : String) :
    genericCandidate "google_api_key" text = decide (text ≠ "") := by
  have h1 : contains (toLower "google_api_key") "api" = true := by decide
  have h2 : contains (toLower "google_api_key") "key" = true := by decide
  simp [genericCandidate, h1, h2]

theorem genericCandidate_empty (name : String) : genericCandidate name "" = false := by
  simp [genericCandidate]

theorem genericCandidate_denylist (name text : String)
    (h : name = "abc_capital_off" ∨ name = "abc_capital_on" ∨ name = "currentApiLevel") :
    genericCandidate name text = false := by
  have h1 : contains (toLower "abc_capital_off") "key" = false := by decide
  have h2 : contains (toLower "abc_capital_on") "key" = false := by decide
  have h3 : contains (toLower "currentApiLevel") "key" = false := by decide
  rcases h with rfl | rfl | rfl
  · simp [genericCandidate, h1]
  · simp [genericCandidate, h2]
  · simp [genericCandidate, h3]

theorem parseStringsGeneric_of_false (str : Element)
    (h : genericCandidate (str.SelectAttrValue "name" "none") str.Text = false) :
    parseStringsGeneric str = [] := by
  unfold parseStringsGeneric
  simp only [h, Bool.false_eq_true, if_false]

theorem parseStringsGeneric_apiKey (str : Element)
    (hname : str.SelectAttrValue "name" "none" = "google_api_key") (htext : str.Text ≠ "") :
    parseStringsGeneric str
      = [Event.print ("\t- google_api_key: " ++ str.Text ++ "\n")] := by
  have e : "\t- " ++ "google_api_key" ++ ": " = "\t- google_api_key: " := by decide
  unfold parseStringsGeneric
  simp only [hname, genericCandidate_apiKey, htext, ne_eq, not_false_eq_true, decide_True,
    if_true, e]
  simp

theorem parseStringsGeneric_events (str : Element) :
    ∀ e ∈ parseStringsGeneric str,
      e.isGenericLine = true ∧ e.isProbeLine = false ∧ e.requested = none := by
  intro e he
  unfold parseStringsGeneric at he
  simp only [] at he
  split at he
  · split at he
    · cases he
    · simp only [List.mem_singleton] at he
      subst he
      rw [genericLine_eq]
      exact ⟨genericBullet_isGenericLine _, genericBullet_not_probe _, rfl⟩
  · cases he

/-- The body on an entry that is not named `firebase_database_url`. -/
theorem parseStringsBody_not_firebase (net : Net) (cfg : List (List String)) (str : Element)
    (m : Nat) (hname : str.SelectAttrValue "name" "none" ≠ "firebase_database_url") :
    parseStringsBody net cfg str m = parseStringsRest net cfg str m := by
  unfold parseStringsBody
  simp only [hname, if_false]

/-- The body on an entry named `google_api_key` or `google_map_keys`. -/
theorem parseStringsBody_google (net : Net) (cfg : List (List String)) (str : Element)
    (m : Nat)
    (hname : str.SelectAttrValue "name" "none" = "google_api_key"
      ∨ str.SelectAttrValue "name" "none" = "google_map_keys") :
    parseStringsBody net cfg str m
      = Run.seq (googleValues net str.Text cfg.flatten m)
          (fun k => ⟨parseStringsGeneric str, k, false⟩) := by
  have hne : str.SelectAttrValue "name" "none" ≠ "firebase_database_url" := by
    rcases hname with h | h <;> rw [h] <;> decide
  rw [parseStringsBody_not_firebase net cfg str m hne]
  unfold parseStringsRest parseStringsGoogle
  rcases hname with h | h <;> simp [h, googleKeys_flatten]

/-- The body on an entry with none of the three special names. -/
theorem parseStringsBody_plain (net : Net) (cfg : List (List String)) (str : Element)
    (m : Nat)
    (h1 : str.SelectAttrValue "name" "none" ≠ "firebase_database_url")
    (h2 : str.SelectAttrValue "name" "none" ≠ "google_api_key")
    (h3 : str.SelectAttrValue "name" "none" ≠ "google_map_keys") :
    parseStringsBody net cfg str m = ⟨parseStringsGeneric str, m, false⟩ := by
  rw [parseStringsBody_not_firebase net cfg str m h1]
  unfold parseStringsRest parseStringsGoogle
  simp [h2, h3, Run.seq_mk_false]

/-- The body on an entry named `firebase_database_url`. -/
theorem parseStringsBody_firebase (net : Net) (cfg : List (List String)) (str : Element)
    (m : Nat) (hname : str.SelectAttrValue "name" "none" = "firebase_database_url") :
    parseStringsBody net cfg str m
      = ⟨Event.get (str.Text ++ "/.json") ::
          (match net m (str.Text ++ "/.json") with
           | .sendError => [Event.print "Couldn't connect to Firebase\n"]
           | .response StatusCode _ =>
             [(if StatusCode = 401 then
                 Event.print ("\n\t- " ++ (str.Text ++ "/.json") ++ ": Permission Denied")
               else Event.print ("\n\t- " ++ (str.Text ++ "/.json") ++ ": Is open to public")),
              Event.print "\n"]), m + 1, false⟩ := by
  have hg : parseStringsGeneric str = [] :=
    parseStringsGeneric_of_false str (by rw [hname]; exact genericCandidate_firebase _)
  have hrest : ∀ k, parseStringsRest net cfg str k = ⟨[], k, false⟩ := by
    intro k
    unfold parseStringsRest parseStringsGoogle
    simp [hname, hg, Run.seq_mk_false]
  unfold parseStringsBody
  simp only [hname, if_true]
  cases h : net m (str.Text ++ "/.json") with
  | sendError => rfl
  | response st body => simp [Run.seq_mk_false, hrest]

theorem length_filterMap_eq_countP {α β : Type} (f : α → Option β) (l : List α) :
    (l.filterMap f).length = l.countP (fun a => (f a).isSome) := by
  induction l with
  | nil => rfl
  | cons a rest ih =>
    cases h : f a with
    | none => simp [List.filterMap_cons, h, ih]
    | some b => simp [List.filterMap_cons, h, ih]

end Slicer

namespace Slicer

theorem parseStringsBody_firebase_not_generic (net : Net) (cfg : List (List String))
    (str : Element) (m : Nat)
    (hname : str.SelectAttrValue "name" "none" = "firebase_database_url") :
    ∀ e ∈ (parseStringsBody net cfg str m).out, e.isGenericLine = false := by
  have h1 : (Event.print "Couldn't connect to Firebase\n").isGenericLine = false := by decide
  have h2 : (Event.print "\n").isGenericLine = false := by decide
  have h3 : ∀ x y : String, (Event.print ("\n\t- " ++ x ++ y)).isGenericLine = false := by
    intro x y
    rw [String.append_assoc]
    exact probeBullet_not_generic _
  rw [parseStringsBody_firebase net cfg str m hname]
  intro e he
  simp only [List.mem_cons] at he
  rcases he with rfl | he
  · rfl
  · cases hr : net m (str.Text ++ "/.json") with
    | sendError =>
      rw [hr] at he
      simp only [List.mem_singleton] at he
      subst he; exact h1
    | response st body =>
      rw [hr] at he
      simp only [List.mem_cons, List.mem_singleton, List.not_mem_nil, or_false] at he
      rcases he with rfl | rfl
      · split
        · exact h3 _ _
        · exact h3 _ _
      · exact h2

theorem googleFinding_empty (p : String × Response) : googleFinding "" p = none := by
  rcases p with ⟨url, r⟩
  cases r with
  | sendError => rfl
  | response st body =>
    cases body with
    | none => rfl
    | some b =>
      unfold googleFinding
      exact if_neg (fun hc => hc.2.2 rfl)

/-! ## String-resource side: the claims -/

/-- C5: for an entry named `firebase_database_url` with value `v` that the run reaches,
`parseStrings` sends exactly one request, to `v ++ "/.json"`; a response with status 401
prints the line "v/.json: Permission Denied" behind the bullet, a response with any other
status prints "v/.json: Is open to public", and the run goes on with the next entry. -/
theorem parseStrings_firebase (net : Net) (googleURL : List (List String)) (n : Nat)
    (document : Document) (pre : List Element) (str : Element) (post : List Element)
    (m : Nat) (h : Reaches net googleURL n document pre str post m)
    (hname : str.SelectAttrValue "name" "none" = "firebase_database_url") :
    parseStrings net googleURL n document = some (runAround net googleURL pre str post n)
    ∧ ∀ StatusCode body,
        net m (str.Text ++ "/.json") = Response.response StatusCode body →
        (StatusCode = 401 →
          parseStringsBody net googleURL str m
            = ⟨[Event.get (str.Text ++ "/.json"),
                Event.print ("\n\t- " ++ (str.Text ++ "/.json") ++ ": Permission Denied"),
                Event.print "\n"], m + 1, false⟩)
        ∧ (StatusCode ≠ 401 →
          parseStringsBody net googleURL str m
            = ⟨[Event.get (str.Text ++ "/.json"),
                Event.print ("\n\t- " ++ (str.Text ++ "/.json") ++ ": Is open to public"),
                Event.print "\n"], m + 1, false⟩) := by
  refine ⟨parseStrings_reaches net googleURL n document pre str post m h, ?_⟩
  intro st body hresp
  rw [parseStringsBody_firebase net googleURL str m hname, hresp]
  constructor
  · intro h401
    simp only [h401, if_true]
  · intro hne
    simp only [hne, if_false]

/-- Witness of C5: the value "https://x.firebaseio.com" answered with status 200 gives the
line "https://x.firebaseio.com/.json: Is open to public". -/
theorem parseStrings_firebase_witness :
    parseStrings (netAlways (Response.response 200 (some "null"))) [] 0
        (resourcesDocument [stringElement "firebase_database_url" "https://x.firebaseio.com"])
      = some (runAround (netAlways (Response.response 200 (some "null"))) [] []
          (stringElement "firebase_database_url" "https://x.firebaseio.com") [] 0)
    ∧ parseStringsBody (netAlways (Response.response 200 (some "null"))) []
        (stringElement "firebase_database_url" "https://x.firebaseio.com") 0
      = ⟨[Event.get "https://x.firebaseio.com/.json",
          Event.print "\n\t- https://x.firebaseio.com/.json: Is open to public",
          Event.print "\n"], 1, false⟩ :=
  have h := parseStrings_firebase (netAlways (Response.response 200 (some "null"))) [] 0
    (resourcesDocument [stringElement "firebase_database_url" "https://x.firebaseio.com"])
    [] (stringElement "firebase_database_url" "https://x.firebaseio.com") [] 0
    ⟨_, rfl, rfl, rfl, rfl⟩ rfl
  ⟨h.1, (h.2 200 (some "null") rfl).2 (by decide)⟩

/-- C4: for an entry named `google_api_key` or `google_map_keys` that the run reaches, the
requests of the entry are its probes, one per configured endpoint in order, and the probe
finding lines it prints are, in the same order, those of the probes whose request and body
read succeeded with a status other than 403, a body without "API project is not
authorized" and a non-empty key; so their number is the number of such probes. -/
theorem parseStrings_google (net : Net) (googleURL : List (List String)) (n : Nat)
    (document : Document) (pre : List Element) (str : Element) (post : List Element)
    (m : Nat) (h : Reaches net googleURL n document pre str post m)
    (hname : str.SelectAttrValue "name" "none" = "google_api_key"
      ∨ str.SelectAttrValue "name" "none" = "google_map_keys") :
    parseStrings net googleURL n document = some (runAround net googleURL pre str post n)
    ∧ (parseStringsBody net googleURL str m).out.filterMap Event.requested
        = (probesOf net str.Text googleURL.flatten m).map Prod.fst
    ∧ (parseStringsBody net googleURL str m).out.filter Event.isProbeLine
        = (probesOf net str.Text googleURL.flatten m).filterMap (googleFinding str.Text)
    ∧ ((parseStringsBody net googleURL str m).out.filter Event.isProbeLine).length
        = (probesOf net str.Text googleURL.flatten m).countP
            (fun p => (googleFinding str.Text p).isSome) := by
  refine ⟨parseStrings_reaches net googleURL n document pre str post m h, ?_⟩
  obtain ⟨g1, g2, _⟩ := googleValues_spec net str.Text googleURL.flatten m
  have hev := parseStringsGeneric_events str
  have hreq : (if (googleValues net str.Text googleURL.flatten m).returned = true then []
      else parseStringsGeneric str).filterMap Event.requested = [] := by
    rw [List.filterMap_eq_nil_iff]
    intro e he
    split at he
    · cases he
    · exact (hev e he).2.2
  have hprobe : (if (googleValues net str.Text googleURL.flatten m).returned = true then []
      else parseStringsGeneric str).filter Event.isProbeLine = [] := by
    rw [List.filter_eq_nil_iff]
    intro e he
    split at he
    · cases he
    · rw [(hev e he).2.1]; decide
  have hout : (parseStringsBody net googleURL str m).out
      = (googleValues net str.Text googleURL.flatten m).out
        ++ (if (googleValues net str.Text googleURL.flatten m).returned = true then []
            else parseStringsGeneric str) := by
    rw [parseStringsBody_google net googleURL str m hname, Run.seq_out]
  have h2 : (parseStringsBody net googleURL str m).out.filter Event.isProbeLine
      = (probesOf net str.Text googleURL.flatten m).filterMap (googleFinding str.Text) := by
    rw [hout, List.filter_append, hprobe, List.append_nil, g2]
  refine ⟨?_, h2, ?_⟩
  · rw [hout, List.filterMap_append, hreq, List.append_nil, g1]
  · rw [h2, length_filterMap_eq_countP]

/-- Witness of C4: a key probed at two endpoints, both answered with status 200. -/
theorem parseStrings_google_witness :
    parseStrings (netAlways (Response.response 200 (some "ok")))
        [["https://a.example/?key="], ["https://b.example/?key="]] 0
        (resourcesDocument [stringElement "google_map_keys" "K"])
      = some (runAround (netAlways (Response.response 200 (some "ok")))
          [["https://a.example/?key="], ["https://b.example/?key="]] []
          (stringElement "google_map_keys" "K") [] 0)
    ∧ (parseStringsBody (netAlways (Response.response 200 (some "ok")))
        [["https://a.example/?key="], ["https://b.example/?key="]]
        (stringElement "google_map_keys" "K") 0).out.filterMap Event.requested
        = (probesOf (netAlways (Response.response 200 (some "ok")))
            (stringElement "google_map_keys" "K").Text
            [["https://a.example/?key="], ["https://b.example/?key="]].flatten 0).map Prod.fst
    ∧ (parseStringsBody (netAlways (Response.response 200 (some "ok")))
        [["https://a.example/?key="], ["https://b.example/?key="]]
        (stringElement "google_map_keys" "K") 0).out.filter Event.isProbeLine
        = (probesOf (netAlways (Response.response 200 (some "ok")))
            (stringElement "google_map_keys" "K").Text
            [["https://a.example/?key="], ["https://b.example/?key="]].flatten 0).filterMap
              (googleFinding (stringElement "google_map_keys" "K").Text)
    ∧ ((parseStringsBody (netAlways (Response.response 200 (some "ok")))
        [["https://a.example/?key="], ["https://b.example/?key="]]
        (stringElement "google_map_keys" "K") 0).out.filter Event.isProbeLine).length
        = (probesOf (netAlways (Response.response 200 (some "ok")))
            (stringElement "google_map_keys" "K").Text
            [["https://a.example/?key="], ["https://b.example/?key="]].flatten 0).countP
              (fun p => (googleFinding (stringElement "google_map_keys" "K").Text p).isSome)
    ∧ (parseStringsBody (netAlways (Response.response 200 (some "ok")))
        [["https://a.example/?key="], ["https://b.example/?key="]]
        (stringElement "google_map_keys" "K") 0).out
        = [Event.get "https://a.example/?key=K",
           Event.print "\n\t- https://a.example/?key=K: 200\n",
           Event.get "https://b.example/?key=K",
           Event.print "\n\t- https://b.example/?key=K: 200\n"] :=
  have h := parseStrings_google (netAlways (Response.response 200 (some "ok")))
    [["https://a.example/?key="], ["https://b.example/?key="]] 0
    (resourcesDocument [stringElement "google_map_keys" "K"])
    [] (stringElement "google_map_keys" "K") [] 0 ⟨_, rfl, rfl, rfl, rfl⟩ (Or.inr rfl)
  ⟨h.1, h.2.1, h.2.2.1, h.2.2.2, by decide⟩

end Slicer

namespace Slicer

/-- C3, counterexample: an entry `google_api_key` with value "K" whose probe is answered
with status 403 still prints the generic line "- google_api_key: K". -/
theorem parseStrings_precedence_counterexample :
    parseStrings (netAlways (Response.response 403 (some ""))) [["https://a.example/?key="]] 0
        (resourcesDocument [stringElement "google_api_key" "K"])
      = some ⟨[Event.get "https://a.example/?key=K",
               Event.print "\t- google_api_key: K\n"], 1, false⟩ := by
  decide

/-- C3, amended: the three rules are tested one after another, and the generic rule is
tested for every entry whose processing arrives at it, whatever the name. An entry named
`google_api_key` with a non-empty value prints the generic line "- google_api_key: value"
as its last output when no body read of its probes fails, and no generic line when one
fails; an entry named `firebase_database_url` or `google_map_keys` prints no generic line,
because its name does not contain both "api" and "key". -/
theorem parseStrings_generic_rule (net : Net) (googleURL : List (List String)) (n : Nat)
    (document : Document) (pre : List Element) (str : Element) (post : List Element)
    (m : Nat) (h : Reaches net googleURL n document pre str post m)
    (hname : str.SelectAttrValue "name" "none" = "firebase_database_url"
      ∨ str.SelectAttrValue "name" "none" = "google_api_key"
      ∨ str.SelectAttrValue "name" "none" = "google_map_keys") :
    parseStrings net googleURL n document = some (runAround net googleURL pre str post n)
    ∧ (str.SelectAttrValue "name" "none" = "google_api_key" → str.Text ≠ "" →
        ((googleKeys net str.Text googleURL m).returned = false →
          (parseStringsBody net googleURL str m).out
            = (googleKeys net str.Text googleURL m).out
              ++ [Event.print ("\t- google_api_key: " ++ str.Text ++ "\n")])
        ∧ ((googleKeys net str.Text googleURL m).returned = true →
          ∀ e ∈ (parseStringsBody net googleURL str m).out, e.isGenericLine = false))
    ∧ (str.SelectAttrValue "name" "none" ≠ "google_api_key" →
        ∀ e ∈ (parseStringsBody net googleURL str m).out, e.isGenericLine = false) := by
  refine ⟨parseStrings_reaches net googleURL n document pre str post m h, ?_, ?_⟩
  · intro hk htext
    rw [parseStringsBody_google net googleURL str m (Or.inl hk), Run.seq_out,
      googleKeys_flatten, parseStringsGeneric_apiKey str hk htext]
    constructor
    · intro hr
      simp only [hr, Bool.false_eq_true, if_false]
    · intro hr e he
      simp only [hr, if_true, List.append_nil] at he
      exact (googleValues_spec net str.Text googleURL.flatten m).2.2 e he
  · intro hne
    rcases hname with hf | hk | hmk
    · exact parseStringsBody_firebase_not_generic net googleURL str m hf
    · exact absurd hk hne
    · have hg : parseStringsGeneric str = [] :=
        parseStringsGeneric_of_false str (by rw [hmk]; exact genericCandidate_mapKeys _)
      rw [parseStringsBody_google net googleURL str m (Or.inr hmk), Run.seq_out, hg]
      intro e he
      simp only [ite_self, List.append_nil] at he
      exact (googleValues_spec net str.Text googleURL.flatten m).2.2 e he

/-- Witness of the amended C3: an entry `google_api_key` with value "K" and one endpoint
answered with status 403. -/
theorem parseStrings_generic_rule_witness :
    (googleKeys (netAlways (Response.response 403 (some "")))
        (stringElement "google_api_key" "K").Text [["https://a.example/?key="]] 0).returned
      = false
    ∧ (parseStringsBody (netAlways (Response.response 403 (some "")))
        [["https://a.example/?key="]] (stringElement "google_api_key" "K") 0).out
      = (googleKeys (netAlways (Response.response 403 (some "")))
          (stringElement "google_api_key" "K").Text [["https://a.example/?key="]] 0).out
        ++ [Event.print ("\t- google_api_key: " ++ (stringElement "google_api_key" "K").Text
            ++ "\n")] :=
  ⟨by decide,
   ((parseStrings_generic_rule (netAlways (Response.response 403 (some "")))
      [["https://a.example/?key="]] 0
      (resourcesDocument [stringElement "google_api_key" "K"])
      [] (stringElement "google_api_key" "K") [] 0 ⟨_, rfl, rfl, rfl, rfl⟩
      (Or.inr (Or.inl rfl))).2.1 rfl (by decide)).1 (by decide)⟩

/-- C7: an entry whose text is empty prints no finding line in any category, whatever its
name and whatever the responses to its probes are: no generic line and no probe finding
line. The Google and the generic rule test the value; the Firebase branch builds the URL
"/.json", which `http.Get` refuses for its missing scheme, so only the notice is printed
and the loop goes on with the next entry. -/
theorem parseStrings_empty_text (net : Net) (googleURL : List (List String)) (n : Nat)
    (document : Document) (pre : List Element) (str : Element) (post : List Element)
    (m : Nat) (h : Reaches net googleURL n document pre str post m)
    (htext : str.Text = "") (hget : Refuses net "/.json") :
    parseStrings net googleURL n document = some (runAround net googleURL pre str post n)
    ∧ (∀ e ∈ (parseStringsBody net googleURL str m).out,
        e.isGenericLine = false ∧ e.isProbeLine = false)
    ∧ (str.SelectAttrValue "name" "none" = "firebase_database_url" →
        parseStringsBody net googleURL str m
          = ⟨[Event.get "/.json", Event.print "Couldn't connect to Firebase\n"],
             m + 1, false⟩) := by
  have hg : parseStringsGeneric str = [] :=
    parseStringsGeneric_of_false str (by rw [htext]; exact genericCandidate_empty _)
  have hfire : str.SelectAttrValue "name" "none" = "firebase_database_url" →
      parseStringsBody net googleURL str m
        = ⟨[Event.get "/.json", Event.print "Couldn't connect to Firebase\n"],
           m + 1, false⟩ := by
    intro hf
    rw [parseStringsBody_firebase net googleURL str m hf, htext, String.empty_append, hget m]
  refine ⟨parseStrings_reaches net googleURL n document pre str post m h, ?_, hfire⟩
  by_cases hf : str.SelectAttrValue "name" "none" = "firebase_database_url"
  · have h1 : (Event.print "Couldn't connect to Firebase\n").isGenericLine = false := by
      decide
    have h2 : (Event.print "Couldn't connect to Firebase\n").isProbeLine = false := by
      decide
    rw [hfire hf]
    intro e he
    simp only [List.mem_cons, List.mem_singleton, List.not_mem_nil, or_false] at he
    rcases he with rfl | rfl
    · exact ⟨rfl, rfl⟩
    · exact ⟨h1, h2⟩
  · by_cases hk : str.SelectAttrValue "name" "none" = "google_api_key"
        ∨ str.SelectAttrValue "name" "none" = "google_map_keys"
    · rw [parseStringsBody_google net googleURL str m hk, Run.seq_out, hg]
      intro e he
      simp only [ite_self, List.append_nil] at he
      have hspec := googleValues_spec net str.Text googleURL.flatten m
      have hfil := hspec.2.1
      have hnil : (probesOf net str.Text googleURL.flatten m).filterMap
          (googleFinding str.Text) = [] := by
        rw [List.filterMap_eq_nil_iff]
        intro p _
        rw [htext]
        exact googleFinding_empty p
      rw [hnil, List.filter_eq_nil_iff] at hfil
      have hp := hfil e he
      exact ⟨hspec.2.2 e he, by simpa using hp⟩
    · rw [parseStringsBody_plain net googleURL str m hf (fun x => hk (Or.inl x))
        (fun x => hk (Or.inr x)), hg]
      intro e he
      cases he

/-- Witness of C7: an entry `firebase_database_url` with an empty value, on a network that
answers every URL with a scheme with status 200, prints the notice only. -/
theorem parseStrings_empty_text_witness :
    Refuses (netRefusing "/.json" (Response.response 200 (some "null"))) "/.json"
    ∧ (stringElement "firebase_database_url" "").Text = ""
    ∧ parseStringsBody (netRefusing "/.json" (Response.response 200 (some "null"))) []
        (stringElement "firebase_database_url" "") 0
      = ⟨[Event.get "/.json", Event.print "Couldn't connect to Firebase\n"], 1, false⟩ :=
  ⟨fun _ => rfl, rfl,
   (parseStrings_empty_text (netRefusing "/.json" (Response.response 200 (some "null"))) [] 0
      (resourcesDocument [stringElement "firebase_database_url" ""])
      [] (stringElement "firebase_database_url" "") [] 0 ⟨_, rfl, rfl, rfl, rfl⟩ rfl
      (fun _ => rfl)).2.2 rfl⟩

/-- C9, counterexample: none of the three names of the denylist matches the name
heuristic, since none contains "key" after lower-casing; the generic test already fails. -/
theorem parseStrings_denylist_counterexample :
    contains (toLower "abc_capital_off") "key" = false
    ∧ contains (toLower "abc_capital_on") "key" = false
    ∧ contains (toLower "currentApiLevel") "key" = false
    ∧ genericCandidate "abc_capital_off" "x" = false
    ∧ genericCandidate "abc_capital_on" "x" = false
    ∧ genericCandidate "currentApiLevel" "x" = false := by
  decide

/-- C9, amended: for every value, an entry named `abc_capital_off`, `abc_capital_on` or
`currentApiLevel` prints nothing and sends no request, so no generic line; the name does
not match the name heuristic (it does not contain "key" after lower-casing), so the test
in front of the denylist already fails. -/
theorem parseStrings_denylist (net : Net) (googleURL : List (List String)) (n : Nat)
    (document : Document) (pre : List Element) (str : Element) (post : List Element)
    (m : Nat) (h : Reaches net googleURL n document pre str post m)
    (hname : str.SelectAttrValue "name" "none" = "abc_capital_off"
      ∨ str.SelectAttrValue "name" "none" = "abc_capital_on"
      ∨ str.SelectAttrValue "name" "none" = "currentApiLevel") :
    parseStrings net googleURL n document = some (runAround net googleURL pre str post n)
    ∧ parseStringsBody net googleURL str m = ⟨[], m, false⟩
    ∧ genericCandidate (str.SelectAttrValue "name" "none") str.Text = false
    ∧ contains (toLower (str.SelectAttrValue "name" "none")) "key" = false := by
  have hc := genericCandidate_denylist _ str.Text hname
  have hg : parseStringsGeneric str = [] := parseStringsGeneric_of_false str hc
  have h1 : str.SelectAttrValue "name" "none" ≠ "firebase_database_url" := by
    rcases hname with h | h | h <;> rw [h] <;> decide
  have h2 : str.SelectAttrValue "name" "none" ≠ "google_api_key" := by
    rcases hname with h | h | h <;> rw [h] <;> decide
  have h3 : str.SelectAttrValue "name" "none" ≠ "google_map_keys" := by
    rcases hname with h | h | h <;> rw [h] <;> decide
  refine ⟨parseStrings_reaches net googleURL n document pre str post m h, ?_, hc, ?_⟩
  · rw [parseStringsBody_plain net googleURL str m h1 h2 h3, hg]
  · rcases hname with h | h | h <;> rw [h] <;> decide

/-- Witness of the amended C9: an entry `currentApiLevel` with value "30". -/
theorem parseStrings_denylist_witness :
    parseStrings (netAlways Response.sendError) [] 0
        (resourcesDocument [stringElement "currentApiLevel" "30"])
      = some (runAround (netAlways Response.sendError) [] []
          (stringElement "currentApiLevel" "30") [] 0)
    ∧ parseStringsBody (netAlways Response.sendError) []
        (stringElement "currentApiLevel" "30") 0 = ⟨[], 0, false⟩ :=
  have h := parseStrings_denylist (netAlways Response.sendError) [] 0
    (resourcesDocument [stringElement "currentApiLevel" "30"])
    [] (stringElement "currentApiLevel" "30") [] 0 ⟨_, rfl, rfl, rfl, rfl⟩
    (Or.inr (Or.inr rfl))
  ⟨h.1, h.2.1⟩

/-- C6, the failing input: a key entry followed by an entry `my_api_key`. When the body of
the probe cannot be read, `parseStrings` returns after the request and the second entry is
not processed; when the body is read, the second entry prints its generic line. -/
theorem parseStrings_read_failure_stops :
    parseStrings (netAlways (Response.response 200 none)) [["https://a.example/?key="]] 0
        (resourcesDocument [stringElement "google_api_key" "K", stringElement "my_api_key" "V"])
      = some ⟨[Event.get "https://a.example/?key=K"], 1, true⟩
    ∧ parseStrings (netAlways (Response.response 200 (some "ok")))
        [["https://a.example/?key="]] 0
        (resourcesDocument [stringElement "google_api_key" "K", stringElement "my_api_key" "V"])
      = some ⟨[Event.get "https://a.example/?key=K",
               Event.print "\n\t- https://a.example/?key=K: 200\n",
               Event.print "\t- google_api_key: K\n",
               Event.print "\t- my_api_key: V\n"], 1, false⟩ := by
  decide

/-- C10, the failing input: a well-formed document whose root is neither `manifest` nor
`resources` is sent to `parseStrings`, where the root lookup gives nil and the nil pointer
is dereferenced. -/
theorem mainRegular_without_resources (net : Net) (googleURL : List (List String))
    (n : Nat) :
    (Document.mk ⟨"", "", [], [Token.element "" "foo" [] []]⟩).SelectElement "manifest" = none
    ∧ (Document.mk ⟨"", "", [], [Token.element "" "foo" [] []]⟩).SelectElement "resources"
        = none
    ∧ mainRegular net googleURL n (Document.mk ⟨"", "", [], [Token.element "" "foo" [] []]⟩)
        = none :=
  ⟨rfl, rfl, rfl⟩

end Slicer
